import Mathlib

/-!
Verification development for the core of the Lightning node ("ShangDian").

The file shallowly embeds the parts of the repository that the checked
properties are about:

* the broadcast event loop (`src/core/broadcast/src/ev.rs`),
* the consensus-to-execution bridge (`src/core/consensus/src/execution.rs`),
* the application state machine (the executor itself is not part of the
  source snapshot, only its tests in `src/core/application/src/tests.rs`;
  the relevant operations are therefore modelled from the specification,
  and each such definition says so in its doc comment),
* the reward-distribution arithmetic (modelled from the specification over
  exact rationals, matching the exactness contract of `HpFixed`).

Machine integers are modelled as `Nat` with explicit truncation where the
source casts (e.g. `as u32`).  Rust functions that can panic are embedded
as `Option`-valued functions where `none` is the panic.  External
cryptographic primitives (blake3, signature verification, the consensus
engine's batch digest) are taken as function parameters, so every theorem
holds for an arbitrary instantiation of them.
-/

namespace Broadcast

/-- Gossip topic, from `lightning_interfaces::types::Topic`
(`Consensus(0)`, `DistributedHashTable(1)`, `Debug(2)`). -/
inductive Topic where
  | Consensus
  | DistributedHashTable
  | Debug
deriving DecidableEq, Repr

/-- Translated from `topic_to_index` in `src/core/broadcast/src/ev.rs`:
maps each topic to the index of its receive ring. -/
def topic_to_index (t : Topic) : Fin 3 :=
  match t with
  | .Consensus => 0
  | .DistributedHashTable => 1
  | .Debug => 2

/-- Wire `Message` frame: `{topic, origin: NodeIndex, signature, payload}`.
Public keys, signatures and digests are abstracted as natural numbers. -/
structure BMessage where
  topic : Topic
  origin : Nat
  signature : Nat
  payload : List Nat
deriving DecidableEq, Repr

/-- Wire `Advr` frame: `{interned_id: u16, digest}`. -/
structure Advr where
  interned_id : Nat
  digest : Nat
deriving DecidableEq, Repr

/-- Wire `Want` frame: `{interned_id: u16}`. -/
structure Want where
  interned_id : Nat
deriving DecidableEq, Repr

/-- The `SharedMessage` pushed into a topic ring on successful receipt:
`{digest, origin, payload}` (from `handle_message`). -/
structure SharedMessage where
  digest : Nat
  origin : Nat
  payload : List Nat
deriving DecidableEq, Repr

/-- State of the broadcast event loop (`Context` in
`src/core/broadcast/src/ev.rs`) restricted to the fields the handlers
below touch: the per-topic receive rings, the two index lookups used by
`get_node_index`, the application's `index_to_pubkey` view and the
per-peer `invalid_messages_received_from_peer` statistic. -/
structure BContext where
  /-- The connected-peers mapping `peers.get_node_index`. -/
  peersIndex : Nat → Option Nat
  /-- The application query runner `sqr.pubkey_to_index`. -/
  sqrIndex : Nat → Option Nat
  /-- The application query runner `sqr.index_to_pubkey`. -/
  sqrPk : Nat → Option Nat
  /-- Per node-index count of `invalid_messages_received_from_peer`. -/
  stats : Nat → Nat
  /-- The three topic rings `incoming_messages`, indexed by `topic_to_index`. -/
  incoming_messages : Fin 3 → List SharedMessage

/-- Translated from `Context::get_node_index`: first the connected-peers
mapping, then the application's query runner. -/
def get_node_index (ctx : BContext) (pk : Nat) : Option Nat :=
  match ctx.peersIndex pk with
  | some i => some i
  | none => ctx.sqrIndex pk

/-- Modelled from the spec: `stats.report` with a
`ConnectionStats { invalid_messages_received_from_peer: 1, .. }` record
(the `Stats` module itself is not part of the source snapshot; the spec
says broadcast-layer errors "are accounted as peer statistics", and the
claim reads the report as an increment of the counter). -/
def report_invalid (ctx : BContext) (i : Nat) : BContext :=
  { ctx with stats := fun j => if j = i then ctx.stats j + 1 else ctx.stats j }

/-- Modelled from the spec: insertion into a topic ring.  The
`RecvBuffer`/`MessageRing` modules are not part of the source snapshot;
the spec describes the rings as bounded FIFOs that drop the *oldest*
entry on overflow, so an insert always appends the new message.  The
capacity bound is immaterial to the claims checked here. -/
def insert_ring (ctx : BContext) (t : Topic) (m : SharedMessage) : BContext :=
  { ctx with
    incoming_messages := fun k =>
      if k = topic_to_index t then ctx.incoming_messages k ++ [m]
      else ctx.incoming_messages k }

/-- Translated from `Context::handle_message` in
`src/core/broadcast/src/ev.rs`.  `verify` abstracts
`origin_pk.verify(signature, digest)` and `td` abstracts
`msg.to_digest()`.  The `.unwrap()` calls on `get_node_index` in the two
failure paths are embedded as `none` (a panic) when the lookup fails. -/
def handle_message (verify : Nat → Nat → Nat → Bool) (td : BMessage → Nat)
    (ctx : BContext) (sender : Nat) (msg : BMessage) : Option BContext :=
  match ctx.sqrPk msg.origin with
  | none =>
    match get_node_index ctx sender with
    | none => none
    | some i => some (report_invalid ctx i)
  | some originPk =>
    let digest := td msg
    if verify originPk msg.signature digest then
      some (insert_ring ctx msg.topic
        { digest := digest, origin := msg.origin, payload := msg.payload })
    else
      match get_node_index ctx sender with
      | none => none
      | some i => some (report_invalid ctx i)

/-- Translated from `Context::handle_advr` in
`src/core/broadcast/src/ev.rs`: the body of the handler is empty (a
`TODO(qti3e)` stub), so the context is returned unchanged and no `Want`
frame is emitted to anyone.  The second component lists the
`(recipient, Want)` frames the handler sends. -/
def handle_advr (ctx : BContext) (_sender : Nat) (_advr : Advr) :
    BContext × List (Nat × Want) :=
  (ctx, [])

/-- A received `Message` fails origin authentication: either the origin
index resolves to no public key, or the signature does not verify against
the origin's public key. -/
def msg_fails_auth (verify : Nat → Nat → Nat → Bool) (td : BMessage → Nat)
    (ctx : BContext) (msg : BMessage) : Prop :=
  ctx.sqrPk msg.origin = none ∨
    ∃ pk, ctx.sqrPk msg.origin = some pk ∧
      verify pk msg.signature (td msg) = false

/-- A concrete broadcast context in which every lookup fails. -/
def bctxNone : BContext :=
  { peersIndex := fun _ => none
    sqrIndex := fun _ => none
    sqrPk := fun _ => none
    stats := fun _ => 0
    incoming_messages := fun _ => [] }

/-- A concrete broadcast context in which the connected-peers mapping
resolves every public key to node index `7` but the application state
knows no node. -/
def bctxPeer : BContext :=
  { peersIndex := fun _ => some 7
    sqrIndex := fun _ => none
    sqrPk := fun _ => none
    stats := fun _ => 0
    incoming_messages := fun _ => [] }

/-- A concrete incoming message used to instantiate the theorems below. -/
def bmsg0 : BMessage :=
  { topic := .Consensus, origin := 3, signature := 0, payload := [] }

end Broadcast

namespace Consensus

/-- Raw transaction bytes (`narwhal_types::Transaction = Vec<u8>`). -/
abbrev TxBytes := List Nat

/-- Translated from `(self.transactions.len() as u32).to_le_bytes()` in
`AuthenticStampedParcel::to_digest`: the length truncated to 32 bits and
laid out in little-endian byte order. -/
def u32_le (n : Nat) : List Nat :=
  [n % 2 ^ 32 % 2 ^ 8,
   n % 2 ^ 32 / 2 ^ 8 % 2 ^ 8,
   n % 2 ^ 32 / 2 ^ 16 % 2 ^ 8,
   n % 2 ^ 32 / 2 ^ 24 % 2 ^ 8]

/-- The `AuthenticStampedParcel {transactions, last_executed, epoch}` of
`src/core/consensus/src/execution.rs`. -/
structure AuthenticStampedParcel where
  transactions : List TxBytes
  last_executed : List Nat
  epoch : Nat
deriving DecidableEq, Repr

/-- Translated from `AuthenticStampedParcel::to_digest`: the blake3 hash
(abstracted as `h`) of `u32_le(tx_count) || batch_digest ||
last_executed`, where `bd` abstracts the consensus engine's canonical
batch digest `BatchDigest::new(DefaultHashFunction::digest_iterator(..))`
over the transaction list. -/
def to_digest (h : List Nat → List Nat) (bd : List TxBytes → List Nat)
    (p : AuthenticStampedParcel) : List Nat :=
  h (u32_le p.transactions.length ++ bd p.transactions ++ p.last_executed)

/-- A consensus certificate restricted to its epoch tag, the only field
`handle_consensus_output` reads from it. -/
structure Certificate where
  epoch : Nat
deriving DecidableEq, Repr

/-- The view of the application state that the consensus bridge reads
through the query runner: `get_current_epoch`, `get_last_block` and
`has_executed_digest`. -/
structure QState where
  currentEpoch : Nat
  lastBlock : List Nat
  executed : Nat → Bool

/-- The `Block {transactions, digest}` submitted to the execution engine
socket; decoded `TransactionRequest`s are abstracted as naturals. -/
structure CBlock where
  transactions : List Nat
  digest : List Nat

/-- External collaborators of the consensus bridge:
`TransactionRequest::try_from` (`decode`), `tx.hash()` (`txHash`), the
execution engine socket (`exec`, returning the new state and the
`change_epoch` flag of the `BlockExecutionResponse`), and whether an
archive `index_socket` is configured. -/
structure ConsensusEnv where
  decode : TxBytes → Option Nat
  txHash : Nat → Nat
  exec : QState → CBlock → QState × Bool
  hasArchive : Bool

/-- Observable actions of `handle_consensus_output` and `submit_batch`:
submitting a block to the executor, forwarding it to the archive sink,
sending the parcel over `tx_narwhal_batches`, and waking
`reconfigure_notify`. -/
inductive CsEvent where
  | submitBlock (b : CBlock)
  | archiveBlock (b : CBlock)
  | broadcastParcel (p : AuthenticStampedParcel) (epochChanged : Bool)
  | reconfigure

/-- Translated from the inner filter of `handle_consensus_output`: a
transaction byte-slice is kept when it decodes and its hash is not in
`executed_digests`. -/
def keep_tx (env : ConsensusEnv) (st : QState) (txb : TxBytes) : Bool :=
  match env.decode txb with
  | some tx => !(st.executed (env.txHash tx))
  | none => false

/-- Translated from the body of the `for (cert, batches)` loop of
`Execution::handle_consensus_output` together with
`Execution::submit_batch` in `src/core/consensus/src/execution.rs`:
skip the pair when the certificate epoch differs from the current epoch,
otherwise filter the batch payload, assemble the parcel and block,
run the executor and emit the observable actions in source order. -/
def process_pair (env : ConsensusEnv) (h : List Nat → List Nat)
    (bd : List TxBytes → List Nat) (st : QState) (cert : Certificate)
    (batches : List (List TxBytes)) : QState × List CsEvent :=
  if cert.epoch ≠ st.currentEpoch then (st, [])
  else if batches.isEmpty then (st, [])
  else
    let payload := batches.flatten.filter (keep_tx env st)
    if payload.isEmpty then (st, [])
    else
      let parcel : AuthenticStampedParcel :=
        { transactions := payload
          last_executed := st.lastBlock
          epoch := st.currentEpoch }
      let txs := payload.filterMap env.decode
      if txs.isEmpty then (st, [CsEvent.broadcastParcel parcel false])
      else
        let block : CBlock := { transactions := txs, digest := to_digest h bd parcel }
        let res := env.exec st block
        (res.1,
          [CsEvent.submitBlock block] ++
            (if env.hasArchive then [CsEvent.archiveBlock block] else []) ++
            [CsEvent.broadcastParcel parcel res.2] ++
            (if res.2 then [CsEvent.reconfigure] else []))

/-- Translated from `Execution::handle_consensus_output`: fold the loop
body over the `(certificate, batches)` pairs of the `ConsensusOutput`,
threading the application state and concatenating the emitted actions. -/
def handle_consensus_output (env : ConsensusEnv) (h : List Nat → List Nat)
    (bd : List TxBytes → List Nat)
    (pairs : List (Certificate × List (List TxBytes))) (st : QState) :
    QState × List CsEvent :=
  match pairs with
  | [] => (st, [])
  | (cert, batches) :: rest =>
    let r := process_pair env h bd st cert batches
    let r' := handle_consensus_output env h bd rest r.1
    (r'.1, r.2 ++ r'.2)

/-- A concrete consensus environment whose decoder rejects everything. -/
def cenv0 : ConsensusEnv :=
  { decode := fun _ => none
    txHash := fun t => t
    exec := fun s _ => (s, false)
    hasArchive := false }

/-- A concrete query-runner view at epoch `3`. -/
def qst0 : QState :=
  { currentEpoch := 3, lastBlock := [], executed := fun _ => false }

end Consensus

namespace App

/-!
The transaction executor and query runner of the application
(`lightning-application`) are not part of the source snapshot: only their
tests (`src/core/application/src/tests.rs`) are.  The operations that the
claims exercise — the `ChangeEpoch` signal protocol, the
`SubmitReputationMeasurements` uniqueness rule and the validate-only
path — are therefore modelled from the specification (§4.3, §4.3.2,
§4.3.1, §4.8), at the granularity those claims need.
-/

/-- Revert errors of the executor (spec §4.3), restricted to the ones the
modelled methods can produce. -/
inductive ExecutionError where
  | EpochHasNotStarted
  | EpochAlreadyStarted
  | AlreadySubmittedMeasurements
  | NodeDoesNotExist
deriving DecidableEq, Repr

/-- The `ExecutionData` of a successful receipt; the modelled methods
return `None`. -/
inductive ExecutionData where
  | None
deriving DecidableEq, Repr

/-- The discriminated `TransactionResponse` of a receipt:
`Success(ExecutionData)` or `Revert(ExecutionError)`. -/
inductive TransactionResponse where
  | Success (d : ExecutionData)
  | Revert (e : ExecutionError)
deriving DecidableEq, Repr

/-- Modelled from the spec: the slice of the application state the
modelled methods read and write — `current_epoch`, the committee member
list, the `committee.signalled` set (kept as a duplicate-free list), the
set of reporters that already submitted measurements this epoch, and the
accumulated reputation measurements (reporter, opaque measurement map).
Committee members and reporters are `NodeIndex` naturals; the content of
a measurement map is irrelevant to the claims and abstracted as a
natural. -/
structure AppState where
  currentEpoch : Nat
  committee : List Nat
  signalled : List Nat
  repSubmitted : List Nat
  repMeasurements : List (Nat × Nat)
deriving DecidableEq, Repr

/-- Modelled from the spec (§4.3.2): recording a `ChangeEpoch` signal in
`committee.signalled`; the set semantics make repeated signals from one
member count once. -/
def record_signal (s : AppState) (sender : Nat) : List Nat :=
  if sender ∈ s.signalled then s.signalled else sender :: s.signalled

/-- Modelled from the spec (§4.3.2 step 3): the state effect of an epoch
transition — `current_epoch` incremented, `signalled` and the per-epoch
reputation tables cleared.  Reward distribution and committee selection
touch no field of this state slice. -/
def epoch_transition (s : AppState) : AppState :=
  { s with
    currentEpoch := s.currentEpoch + 1
    signalled := []
    repSubmitted := []
    repMeasurements := [] }

/-- Modelled from the spec (§4.3.2): execution of `ChangeEpoch {epoch}`.
A signal for a non-current epoch reverts `EpochHasNotStarted`
(`epoch < current`) or `EpochAlreadyStarted` (`epoch > current`); a
sender outside the committee reverts `NodeDoesNotExist`; otherwise the
signal is recorded and, when `|signalled| ≥ 2·|committee|/3 + 1` (integer
division), the epoch transition fires and the receipt carries
`change_epoch = true` (the third component). -/
def applyChangeEpoch (s : AppState) (sender e : Nat) :
    AppState × TransactionResponse × Bool :=
  if e < s.currentEpoch then (s, .Revert .EpochHasNotStarted, false)
  else if s.currentEpoch < e then (s, .Revert .EpochAlreadyStarted, false)
  else if sender ∈ s.committee then
    let signalled' := record_signal s sender
    if 2 * s.committee.length / 3 + 1 ≤ signalled'.length then
      (epoch_transition s, .Success .None, true)
    else
      ({ s with signalled := signalled' }, .Success .None, false)
  else (s, .Revert .NodeDoesNotExist, false)

/-- Modelled from the spec (§4.8): execution of
`SubmitReputationMeasurements`.  A reporter's first submission of the
epoch appends its measurement map and marks the reporter; a repeated
submission reverts `AlreadySubmittedMeasurements` and changes nothing. -/
def applySubmitRep (s : AppState) (reporter m : Nat) :
    AppState × TransactionResponse :=
  if reporter ∈ s.repSubmitted then
    (s, .Revert .AlreadySubmittedMeasurements)
  else
    ({ s with
        repSubmitted := reporter :: s.repSubmitted
        repMeasurements := (reporter, m) :: s.repMeasurements },
      .Success .None)

/-- The transaction methods the model covers. -/
inductive Txn where
  | changeEpoch (sender e : Nat)
  | submitRep (reporter m : Nat)
deriving DecidableEq, Repr

/-- Modelled from the spec (§4.3): the executor's dispatch for the
modelled methods, returning the new state, the receipt response and the
`change_epoch` flag of the block response. -/
def execute (s : AppState) (t : Txn) : AppState × TransactionResponse × Bool :=
  match t with
  | .changeEpoch sender e => applyChangeEpoch s sender e
  | .submitRep r m =>
    let res := applySubmitRep s r m
    (res.1, res.2, false)

/-- Modelled from the spec (§4.3.1): the query runner's `validate_txn`.
It is written independently of `execute`, deciding the discriminated
response directly from the read snapshot; by its type it returns only a
response and cannot mutate any state. -/
def validate_txn (s : AppState) (t : Txn) : TransactionResponse :=
  match t with
  | .changeEpoch sender e =>
    if e < s.currentEpoch then .Revert .EpochHasNotStarted
    else if s.currentEpoch < e then .Revert .EpochAlreadyStarted
    else if sender ∈ s.committee then .Success .None
    else .Revert .NodeDoesNotExist
  | .submitRep r _ =>
    if r ∈ s.repSubmitted then .Revert .AlreadySubmittedMeasurements
    else .Success .None

/-- A concrete state matching spec scenario 1: committee of size 4
(threshold 3) at epoch 0, members 0 and 1 already signalled. -/
def sScenario : AppState :=
  { currentEpoch := 0
    committee := [0, 1, 2, 3]
    signalled := [0, 1]
    repSubmitted := []
    repMeasurements := [] }

/-- A concrete state with an empty signal set and no submissions. -/
def sFresh : AppState :=
  { currentEpoch := 0
    committee := [0, 1, 2, 3]
    signalled := []
    repSubmitted := []
    repMeasurements := [] }

end App

namespace Rewards

/-!
The reward-distribution code runs inside the executor, which is not part
of the source snapshot; the arithmetic is modelled from the spec
(§4.3.3) over exact rationals, which is faithful to the spec's
exactness contract for `HpFixed` ("all token and share math is exact on
these; no intermediate truncation beyond what HpFixed defines").
-/

/-- Modelled from the spec: what reward distribution reads of a node —
its revenue `r_i` (its portion of `R_usd`) and its `stake_locked_until`
epoch. -/
structure RewardNode where
  revenue : ℚ
  stakeLockedUntil : Nat
deriving DecidableEq, Repr

/-- Modelled from the spec: the boost
`b_i = 1 + (max_boost − 1) × min(stake_locked_until_i − current_epoch,
max_lock) / max_lock` (the epoch subtraction saturates at zero for an
expired lock). -/
def boost (maxBoost : ℚ) (maxLock currentEpoch : Nat) (n : RewardNode) : ℚ :=
  1 + (maxBoost - 1) *
      ((min (n.stakeLockedUntil - currentEpoch) maxLock : Nat) : ℚ) / (maxLock : ℚ)

/-- The boosted revenue weight `r_i · b_i` of a node. -/
def weight (maxBoost : ℚ) (maxLock currentEpoch : Nat) (n : RewardNode) : ℚ :=
  n.revenue * boost maxBoost maxLock currentEpoch n

/-- The normalisation constant `Σ_j r_j · b_j`. -/
def weight_sum (maxBoost : ℚ) (maxLock currentEpoch : Nat)
    (nodes : List RewardNode) : ℚ :=
  (nodes.map (weight maxBoost maxLock currentEpoch)).sum

/-- Modelled from the spec: node `i`'s share of the node portion of the
FLK emissions, `emissions × node_share × (r_i · b_i) / Σ_j r_j · b_j`. -/
def node_flk_reward (emissions nodeShare maxBoost : ℚ) (maxLock currentEpoch : Nat)
    (nodes : List RewardNode) (n : RewardNode) : ℚ :=
  emissions * nodeShare * weight maxBoost maxLock currentEpoch n /
    weight_sum maxBoost maxLock currentEpoch nodes

/-- The total revenue `R_usd = Σ_j r_j` of the epoch's reward pool. -/
def revenue_sum (nodes : List RewardNode) : ℚ :=
  (nodes.map RewardNode.revenue).sum

/-- Modelled from the spec: the stable-coin reward credited to node
`i`'s owner — the node share of the reward pool pro-rata to revenue
alone, `R_usd × node_share × r_i / Σ_j r_j`, with no boost applied. -/
def node_stables_reward (nodeShare : ℚ) (nodes : List RewardNode)
    (n : RewardNode) : ℚ :=
  revenue_sum nodes * nodeShare * n.revenue / revenue_sum nodes

/-- First sample node of spec scenario 4: revenue 2000 USD, unboosted. -/
def rn1 : RewardNode := { revenue := 2000, stakeLockedUntil := 0 }

/-- Second sample node of spec scenario 4: revenue 1000 USD, locked for
1460 epochs (maximum boost). -/
def rn2 : RewardNode := { revenue := 1000, stakeLockedUntil := 1460 }

/-- The two-node population of spec scenario 4. -/
def rnodes : List RewardNode := [rn1, rn2]

end Rewards

/-! ## Theorems -/

namespace Broadcast

/-- C6: every message inserted into a topic ring by `handle_message` has
passed origin signature verification, and when origin resolution or
signature verification fails the handler leaves every topic ring
unchanged and, whenever the sending peer resolves to a node index,
returns with that peer's `invalid_messages_received_from_peer` statistic
incremented (when the sender resolves to no index the handler panics,
see the companion theorem about the unwrap). -/
theorem handle_message_authenticity
    (verify : Nat → Nat → Nat → Bool) (td : BMessage → Nat)
    (ctx : BContext) (sender : Nat) (msg : BMessage) :
    (∀ ctx', handle_message verify td ctx sender msg = some ctx' →
      ∀ k m, m ∈ ctx'.incoming_messages k →
        m ∈ ctx.incoming_messages k ∨
          ∃ pk, ctx.sqrPk msg.origin = some pk ∧
            verify pk msg.signature (td msg) = true) ∧
    (msg_fails_auth verify td ctx msg →
      (∀ ctx', handle_message verify td ctx sender msg = some ctx' →
        ∀ k, ctx'.incoming_messages k = ctx.incoming_messages k) ∧
      (∀ i, get_node_index ctx sender = some i →
        handle_message verify td ctx sender msg = some (report_invalid ctx i) ∧
          (report_invalid ctx i).stats i = ctx.stats i + 1)) := by
  constructor
  · intro ctx' hexec k m hm
    unfold handle_message at hexec
    cases h : ctx.sqrPk msg.origin with
    | none =>
      rw [h] at hexec
      cases hg : get_node_index ctx sender with
      | none => rw [hg] at hexec; exact absurd hexec (by simp)
      | some i =>
        rw [hg] at hexec
        simp only [Option.some.injEq] at hexec
        subst hexec
        exact Or.inl (by simpa [report_invalid] using hm)
    | some pk =>
      rw [h] at hexec
      simp only at hexec
      by_cases hv : verify pk msg.signature (td msg) = true
      · rw [if_pos hv] at hexec
        simp only [Option.some.injEq] at hexec
        subst hexec
        simp only [insert_ring] at hm
        by_cases hk : k = topic_to_index msg.topic
        · rw [if_pos hk] at hm
          rcases List.mem_append.mp hm with hold | hnew
          · exact Or.inl hold
          · exact Or.inr ⟨pk, rfl, hv⟩
        · rw [if_neg hk] at hm
          exact Or.inl hm
      · rw [if_neg hv] at hexec
        cases hg : get_node_index ctx sender with
        | none => rw [hg] at hexec; exact absurd hexec (by simp)
        | some i =>
          rw [hg] at hexec
          simp only [Option.some.injEq] at hexec
          subst hexec
          exact Or.inl (by simpa [report_invalid] using hm)
  · intro hfail
    constructor
    · intro ctx' hexec k
      unfold handle_message at hexec
      rcases hfail with h | ⟨pk, h, hv⟩
      · rw [h] at hexec
        cases hg : get_node_index ctx sender with
        | none => rw [hg] at hexec; exact absurd hexec (by simp)
        | some i =>
          rw [hg] at hexec
          simp only [Option.some.injEq] at hexec
          subst hexec
          rfl
      · rw [h] at hexec
        simp only at hexec
        rw [if_neg (by simp [hv])] at hexec
        cases hg : get_node_index ctx sender with
        | none => rw [hg] at hexec; exact absurd hexec (by simp)
        | some i =>
          rw [hg] at hexec
          simp only [Option.some.injEq] at hexec
          subst hexec
          rfl
    · intro i hi
      refine ⟨?_, by simp [report_invalid]⟩
      unfold handle_message
      rcases hfail with h | ⟨pk, h, hv⟩
      · rw [h, hi]
      · rw [h]
        simp only
        rw [if_neg (by simp [hv]), hi]

/-- C6 witness: a concrete context in which the origin of `bmsg0` has no
public key while the sender resolves to peer index `7`; the handler
records the invalid message against index `7` and no ring changes. -/
theorem handle_message_authenticity_witness :
    msg_fails_auth (fun _ _ _ => false) (fun _ => 0) bctxPeer bmsg0 ∧
      get_node_index bctxPeer 5 = some 7 ∧
      handle_message (fun _ _ _ => false) (fun _ => 0) bctxPeer 5 bmsg0 =
        some (report_invalid bctxPeer 7) ∧
      (report_invalid bctxPeer 7).stats 7 = bctxPeer.stats 7 + 1 := by
  have hfail : msg_fails_auth (fun _ _ _ => false) (fun _ => 0) bctxPeer bmsg0 :=
    Or.inl rfl
  have h :=
    (handle_message_authenticity (fun _ _ _ => false) (fun _ => 0) bctxPeer 5 bmsg0).2
      hfail
  have h7 := h.2 7 rfl
  exact ⟨hfail, rfl, h7.1, h7.2⟩

/-- C10: when a message fails origin authentication and the sender is
neither in the connected-peers mapping nor known to the application
state, `handle_message` panics (the embedded `.unwrap()` returns `none`)
instead of recording the statistic and dropping the message. -/
theorem handle_message_unknown_sender_panics
    (verify : Nat → Nat → Nat → Bool) (td : BMessage → Nat)
    (ctx : BContext) (sender : Nat) (msg : BMessage)
    (hfail : msg_fails_auth verify td ctx msg)
    (hsender : get_node_index ctx sender = none) :
    handle_message verify td ctx sender msg = none := by
  unfold handle_message
  rcases hfail with h | ⟨pk, h, hv⟩
  · rw [h, hsender]
  · rw [h]
    simp only
    rw [if_neg (by simp [hv]), hsender]

/-- C10 witness: in the all-unknown context the handler panics on the
concrete message `bmsg0` sent by the unknown public key `5`. -/
theorem handle_message_unknown_sender_panics_witness :
    msg_fails_auth (fun _ _ _ => false) (fun _ => 0) bctxNone bmsg0 ∧
      get_node_index bctxNone 5 = none ∧
      handle_message (fun _ _ _ => false) (fun _ => 0) bctxNone 5 bmsg0 = none := by
  have hfail : msg_fails_auth (fun _ _ _ => false) (fun _ => 0) bctxNone bmsg0 :=
    Or.inl rfl
  exact ⟨hfail, rfl,
    handle_message_unknown_sender_panics (fun _ _ _ => false) (fun _ => 0) bctxNone 5
      bmsg0 hfail rfl⟩

/-- C9: evaluated at a concrete `Advr` frame advertising a digest the
node has never seen (the context is empty), `handle_advr` leaves the
context unchanged and emits no `Want` frame at all, because its body in
the source is an empty TODO stub; the specified behaviour (answer an
unseen digest with a `Want` to the first advertiser) is not implemented. -/
theorem handle_advr_stub_sends_no_want :
    handle_advr bctxNone 3 { interned_id := 5, digest := 42 } = (bctxNone, []) :=
  rfl

end Broadcast

namespace Consensus

/-- C7: `to_digest` of an `AuthenticStampedParcel` is the blake3 hash of
`u32_le(transactions.len()) || batch_digest(transactions) ||
last_executed`, for every instantiation of the hash and of the consensus
engine's canonical batch digest; in particular the `epoch` field does not
contribute to the digest. -/
theorem parcel_digest_spec (h : List Nat → List Nat)
    (bd : List TxBytes → List Nat) (txs : List TxBytes) (le : List Nat)
    (e e' : Nat) :
    to_digest h bd { transactions := txs, last_executed := le, epoch := e } =
        h (u32_le txs.length ++ bd txs ++ le) ∧
      to_digest h bd { transactions := txs, last_executed := le, epoch := e } =
        to_digest h bd { transactions := txs, last_executed := le, epoch := e' } :=
  ⟨rfl, rfl⟩

/-- C8: a `(certificate, batches)` pair whose certificate epoch differs
from the current epoch read from the query runner is skipped: the loop
body leaves the state unchanged and emits no action (no block submission,
no parcel broadcast), and the whole `handle_consensus_output` run is the
same as the run without that pair. -/
theorem skip_stale_certificate (env : ConsensusEnv) (h : List Nat → List Nat)
    (bd : List TxBytes → List Nat) (st : QState) (cert : Certificate)
    (batches : List (List TxBytes))
    (hne : cert.epoch ≠ st.currentEpoch) :
    process_pair env h bd st cert batches = (st, []) ∧
      ∀ rest, handle_consensus_output env h bd ((cert, batches) :: rest) st =
        handle_consensus_output env h bd rest st := by
  have h1 : process_pair env h bd st cert batches = (st, []) := by
    unfold process_pair
    rw [if_pos hne]
  refine ⟨h1, fun rest => ?_⟩
  have h2 : handle_consensus_output env h bd ((cert, batches) :: rest) st =
      ((handle_consensus_output env h bd rest
          (process_pair env h bd st cert batches).1).1,
        (process_pair env h bd st cert batches).2 ++
          (handle_consensus_output env h bd rest
            (process_pair env h bd st cert batches).1).2) := rfl
  rw [h2, h1]
  simp

/-- C8 witness: a certificate tagged with epoch `2` against a state at
epoch `3` is dropped by the loop body. -/
theorem skip_stale_certificate_witness :
    ({ epoch := 2 } : Certificate).epoch ≠ qst0.currentEpoch ∧
      process_pair cenv0 (fun x => x) (fun _ => []) qst0 { epoch := 2 } [[[1]]] =
        (qst0, []) := by
  have hne : ({ epoch := 2 } : Certificate).epoch ≠ qst0.currentEpoch := by decide
  exact ⟨hne,
    (skip_stale_certificate cenv0 (fun x => x) (fun _ => []) qst0 { epoch := 2 }
      [[[1]]] hne).1⟩

end Consensus

namespace App

/-- C1: a `ChangeEpoch` signal for the current epoch from a committee
member triggers the epoch transition (receipt flag `true` and
`current_epoch` incremented) exactly when the number of distinct
signalling members, with this signal recorded, reaches
`2·N/3 + 1` (integer division, `N` the committee size); below the
threshold the receipt flag is `false` and `current_epoch` is
unchanged. -/
theorem change_epoch_threshold (s : AppState) (sender : Nat)
    (hmem : sender ∈ s.committee) :
    (((applyChangeEpoch s sender s.currentEpoch).2.2 = true ∧
        (applyChangeEpoch s sender s.currentEpoch).1.currentEpoch =
          s.currentEpoch + 1) ↔
      2 * s.committee.length / 3 + 1 ≤ (record_signal s sender).length) ∧
    ((record_signal s sender).length < 2 * s.committee.length / 3 + 1 →
      (applyChangeEpoch s sender s.currentEpoch).2.2 = false ∧
        (applyChangeEpoch s sender s.currentEpoch).1.currentEpoch =
          s.currentEpoch) := by
  have h0 : ¬ s.currentEpoch < s.currentEpoch := lt_irrefl _
  by_cases hth : 2 * s.committee.length / 3 + 1 ≤ (record_signal s sender).length
  · refine ⟨⟨fun _ => hth, fun _ => ⟨?_, ?_⟩⟩, fun hlt => absurd hth (not_le.mpr hlt)⟩
    · simp [applyChangeEpoch, h0, hmem, hth]
    · simp [applyChangeEpoch, h0, hmem, hth, epoch_transition]
  · refine ⟨⟨fun hc => ?_, fun hge => absurd hge hth⟩, fun _ => ⟨?_, ?_⟩⟩
    · exfalso
      have hc1 := hc.1
      simp [applyChangeEpoch, h0, hmem, hth] at hc1
    · simp [applyChangeEpoch, h0, hmem, hth]
    · simp [applyChangeEpoch, h0, hmem, hth]

/-- C1 witness: spec scenario 1 — committee of size 4 (threshold 3) with
members 0 and 1 already signalled; member 2's signal is the third
distinct one and fires the transition to epoch 1, while in the fresh
state the first signal (count 1 < 3) leaves the epoch alone with the
flag down. -/
theorem change_epoch_threshold_witness :
    2 ∈ sScenario.committee ∧
      2 * sScenario.committee.length / 3 + 1 ≤ (record_signal sScenario 2).length ∧
      (applyChangeEpoch sScenario 2 sScenario.currentEpoch).2.2 = true ∧
      (applyChangeEpoch sScenario 2 sScenario.currentEpoch).1.currentEpoch =
        sScenario.currentEpoch + 1 ∧
      (applyChangeEpoch sFresh 0 sFresh.currentEpoch).2.2 = false ∧
      (applyChangeEpoch sFresh 0 sFresh.currentEpoch).1.currentEpoch =
        sFresh.currentEpoch := by
  have hmem : 2 ∈ sScenario.committee := by decide
  have hth :
      2 * sScenario.committee.length / 3 + 1 ≤ (record_signal sScenario 2).length := by
    decide
  have h := (change_epoch_threshold sScenario 2 hmem).1.mpr hth
  have hmem0 : 0 ∈ sFresh.committee := by decide
  have hlt :
      (record_signal sFresh 0).length < 2 * sFresh.committee.length / 3 + 1 := by
    decide
  have h2 := (change_epoch_threshold sFresh 0 hmem0).2 hlt
  exact ⟨hmem, hth, h.1, h.2, h2.1, h2.2⟩

/-- C4: a `ChangeEpoch {epoch}` signal for a non-current epoch reverts
without touching the state: `EpochHasNotStarted` when the epoch is below
the current one, `EpochAlreadyStarted` when it is above. -/
theorem change_epoch_wrong_epoch_reverts (s : AppState) (sender e : Nat) :
    (e < s.currentEpoch →
      applyChangeEpoch s sender e = (s, .Revert .EpochHasNotStarted, false)) ∧
    (s.currentEpoch < e →
      applyChangeEpoch s sender e = (s, .Revert .EpochAlreadyStarted, false)) := by
  constructor
  · intro h
    unfold applyChangeEpoch
    rw [if_pos h]
  · intro h
    unfold applyChangeEpoch
    rw [if_neg (by omega), if_pos h]

/-- A concrete state at epoch 2 with a one-member committee. -/
def sEpoch2 : AppState :=
  { currentEpoch := 2
    committee := [0]
    signalled := []
    repSubmitted := []
    repMeasurements := [] }

/-- C4 witness: at epoch 2 a signal for epoch 1 reverts
`EpochHasNotStarted`; at epoch 0 a signal for epoch 5 reverts
`EpochAlreadyStarted`; the state is returned unchanged. -/
theorem change_epoch_wrong_epoch_reverts_witness :
    applyChangeEpoch sEpoch2 0 1 = (sEpoch2, .Revert .EpochHasNotStarted, false) ∧
      applyChangeEpoch sFresh 0 5 = (sFresh, .Revert .EpochAlreadyStarted, false) :=
  ⟨(change_epoch_wrong_epoch_reverts sEpoch2 0 1).1 (by decide),
    (change_epoch_wrong_epoch_reverts sFresh 0 5).2 (by decide)⟩

/-- C5: within an epoch a reporter's first `SubmitReputationMeasurements`
succeeds and records it; every later submission by the same reporter
reverts `AlreadySubmittedMeasurements` with the state — in particular the
stored measurements — unchanged; the recorded mark survives submissions
by other reporters and any non-triggering `ChangeEpoch`, so the rule
holds across a whole epoch. -/
theorem submit_measurements_once_per_epoch (s : AppState) (r m : Nat) :
    (r ∉ s.repSubmitted →
      applySubmitRep s r m =
          ({ s with
              repSubmitted := r :: s.repSubmitted
              repMeasurements := (r, m) :: s.repMeasurements },
            .Success .None) ∧
        r ∈ (applySubmitRep s r m).1.repSubmitted) ∧
    (r ∈ s.repSubmitted →
      applySubmitRep s r m = (s, .Revert .AlreadySubmittedMeasurements)) ∧
    (∀ r' m', r ∈ s.repSubmitted → r ∈ (applySubmitRep s r' m').1.repSubmitted) ∧
    (∀ sender e, r ∈ s.repSubmitted →
      (applyChangeEpoch s sender e).2.2 = false →
      r ∈ (applyChangeEpoch s sender e).1.repSubmitted) := by
  refine ⟨?_, ?_, ?_, ?_⟩
  · intro h
    have heq : applySubmitRep s r m =
        ({ s with
            repSubmitted := r :: s.repSubmitted
            repMeasurements := (r, m) :: s.repMeasurements },
          .Success .None) := by
      unfold applySubmitRep
      rw [if_neg h]
    refine ⟨heq, ?_⟩
    rw [heq]
    exact List.mem_cons_self r s.repSubmitted
  · intro h
    unfold applySubmitRep
    rw [if_pos h]
  · intro r' m' h
    unfold applySubmitRep
    by_cases h' : r' ∈ s.repSubmitted
    · rw [if_pos h']
      exact h
    · rw [if_neg h']
      exact List.mem_cons_of_mem r' h
  · intro sender e h hflag
    by_cases h1 : e < s.currentEpoch
    · simpa [applyChangeEpoch, h1] using h
    · by_cases h2 : s.currentEpoch < e
      · simpa [applyChangeEpoch, h1, h2] using h
      · by_cases h3 : sender ∈ s.committee
        · by_cases h4 :
              2 * s.committee.length / 3 + 1 ≤ (record_signal s sender).length
          · exfalso
            simp [applyChangeEpoch, h1, h2, h3, h4] at hflag
          · simpa [applyChangeEpoch, h1, h2, h3, h4] using h
        · simpa [applyChangeEpoch, h1, h2, h3] using h

/-- C5 witness: reporter 0's first submission in the fresh state
succeeds; resubmitting in the resulting state reverts
`AlreadySubmittedMeasurements` and returns that state unchanged. -/
theorem submit_measurements_once_per_epoch_witness :
    0 ∉ sFresh.repSubmitted ∧
      applySubmitRep sFresh 0 9 =
        ({ sFresh with repSubmitted := [0], repMeasurements := [(0, 9)] },
          .Success .None) ∧
      applySubmitRep (applySubmitRep sFresh 0 9).1 0 10 =
        ((applySubmitRep sFresh 0 9).1, .Revert .AlreadySubmittedMeasurements) := by
  have h0 : (0 : Nat) ∉ sFresh.repSubmitted := by decide
  have h1 := (submit_measurements_once_per_epoch sFresh 0 9).1 h0
  have h2 :=
    (submit_measurements_once_per_epoch (applySubmitRep sFresh 0 9).1 0 10).2.1 h1.2
  exact ⟨h0, h1.1, h2⟩

/-- C2: the query runner's `validate_txn`, computed directly from the
read snapshot, returns exactly the discriminated response that executing
the transaction against the same snapshot produces; being a function
into responses only, it mutates no state. -/
theorem validate_agrees_with_execute (s : AppState) (t : Txn) :
    validate_txn s t = (execute s t).2.1 := by
  cases t with
  | changeEpoch sender e =>
    simp only [validate_txn, execute, applyChangeEpoch]
    split_ifs <;> rfl
  | submitRep r m =>
    simp only [validate_txn, execute, applySubmitRep]
    split_ifs <;> rfl

end App

namespace Rewards

/-- Multiplication-by-a-constant and division-by-a-constant distribute
over a list sum (division by zero included, since `x / 0 = 0` in `ℚ`). -/
theorem sum_map_mul_div {α : Type} (c W : ℚ) (f : α → ℚ) (l : List α) :
    (l.map (fun x => c * f x / W)).sum = c * (l.map f).sum / W := by
  induction l with
  | nil => simp
  | cons x xs ih =>
    simp only [List.map_cons, List.sum_cons, ih]
    rw [mul_add, add_div]

/-- C3: the FLK emissions' node portion is split across nodes in exact
proportion to `r_i · b_i` with the specified boost formula — the rewards
of any two nodes stand in the ratio of their boosted revenues, and over
the whole population they partition `emissions × node_share` exactly;
the stable-coin rewards are pro-rata to revenue alone (node `i`'s owner
receives exactly `node_share × r_i`, boost-free); all arithmetic is
exact (rational, no rounding).  The boost degenerates to `max_boost` at
a full lock and to `1` at an expired lock. -/
theorem reward_distribution_spec (em ns mb : ℚ) (ml ce : Nat)
    (nodes : List RewardNode) (a b : RewardNode) :
    (boost mb ml ce a =
      1 + (mb - 1) * ((min (a.stakeLockedUntil - ce) ml : Nat) : ℚ) / (ml : ℚ)) ∧
    (node_flk_reward em ns mb ml ce nodes a * weight mb ml ce b =
      node_flk_reward em ns mb ml ce nodes b * weight mb ml ce a) ∧
    (weight_sum mb ml ce nodes ≠ 0 →
      (nodes.map (node_flk_reward em ns mb ml ce nodes)).sum = em * ns) ∧
    (revenue_sum nodes ≠ 0 →
      node_stables_reward ns nodes a = ns * a.revenue) ∧
    (ml ≠ 0 → ce + ml ≤ a.stakeLockedUntil → boost mb ml ce a = mb) ∧
    (a.stakeLockedUntil ≤ ce → boost mb ml ce a = 1) := by
  refine ⟨rfl, ?_, ?_, ?_, ?_, ?_⟩
  · simp only [node_flk_reward]
    ring
  · intro hW
    have hmap :
        (nodes.map (node_flk_reward em ns mb ml ce nodes)).sum =
          (nodes.map
            (fun n => em * ns * weight mb ml ce n /
              weight_sum mb ml ce nodes)).sum := rfl
    rw [hmap, sum_map_mul_div]
    show em * ns * weight_sum mb ml ce nodes / weight_sum mb ml ce nodes = em * ns
    rw [mul_div_assoc, div_self hW, mul_one]
  · intro hr
    simp only [node_stables_reward]
    rw [div_eq_iff hr]
    ring
  · intro hml hle
    have hmin : min (a.stakeLockedUntil - ce) ml = ml := by omega
    have hQ : (ml : ℚ) ≠ 0 := Nat.cast_ne_zero.mpr hml
    simp only [boost, hmin]
    rw [mul_div_assoc, div_self hQ, mul_one]
    ring
  · intro hle
    have hz : a.stakeLockedUntil - ce = 0 := Nat.sub_eq_zero_of_le hle
    simp [boost, hz]

/-- C3 witness: spec scenario 4 — nodes with revenues 2000 and 1000 USD,
`max_boost = 4`, `max_lock = 1460`, boosts 1 and 4; emissions
`100000/365` and `node_share = 4/5`.  The FLK node portion partitions
exactly, node 1's owner is credited `0.8 × 2000` in stables, and the
boosts evaluate to the spec's values. -/
theorem reward_distribution_spec_witness :
    weight_sum 4 1460 0 rnodes ≠ 0 ∧
      (rnodes.map (node_flk_reward (100000 / 365) (4 / 5) 4 1460 0 rnodes)).sum =
        100000 / 365 * (4 / 5) ∧
      revenue_sum rnodes ≠ 0 ∧
      node_stables_reward (4 / 5) rnodes rn1 = 4 / 5 * 2000 ∧
      boost 4 1460 0 rn2 = 4 ∧
      boost 4 1460 0 rn1 = 1 := by
  have hW : weight_sum 4 1460 0 rnodes ≠ 0 := by
    norm_num [weight_sum, rnodes, weight, boost, rn1, rn2]
  have hR : revenue_sum rnodes ≠ 0 := by
    norm_num [revenue_sum, rnodes, rn1, rn2]
  have t1 := reward_distribution_spec (100000 / 365) (4 / 5) 4 1460 0 rnodes rn1 rn1
  have t2 := reward_distribution_spec (100000 / 365) (4 / 5) 4 1460 0 rnodes rn2 rn1
  refine ⟨hW, t1.2.2.1 hW, hR, ?_, ?_, ?_⟩
  · rw [t1.2.2.2.1 hR]
    norm_num [rn1]
  · exact t2.2.2.2.2.1 (by norm_num) (by norm_num [rn2])
  · exact t1.2.2.2.2.2 (by norm_num [rn1])

end Rewards
